import Mathlib

/-!
Verification of the admission tracker (`ConnectionLimiter`) of
`pkg/server/connection_limiter.go` in okeeffe/iptv-proxy.

The Go component is a mutex-protected map from the string key
`clientIP + ":" + streamID` to connection metadata, together with an
admission policy (`checkLimit`), reserve/heartbeat/release operations
(`Acquire`/`Touch`/`Release`) and a background reaper (`sweepStaleHLS`).

Embedding conventions:
* The Go map is modelled as an association list `List (String × ConnEntry)`
  with unique keys (Go maps have unique keys; `insertActive` preserves this).
* Every public operation holds the mutex `cl.mu` for its whole body, so each
  operation is one atomic step on the state; concurrent executions are
  therefore interleavings, i.e. sequences of these atomic steps.
* `time.Now()` is passed in explicitly as an `Int` (nanoseconds, like Go's
  `time.Time`/`Duration` arithmetic); `time.Sub` is integer subtraction.
* `fmt.Errorf("max connections reached (%d/%d)", …)` is modelled as the
  error value `LimitError.atCapacity` carrying the two numbers.
* The `done` channel is modelled by the flag `doneClosed`; per Go language
  semantics, `close` of an already-closed channel panics, which we model by
  `Stop` returning `none`.
-/

namespace IptvProxy

/-- Go: `hlsStaleTimeout = 30 * time.Second` (nanoseconds). -/
def hlsStaleTimeout : Int := 30 * 1000000000

/-- Go: `hlsSweepInterval = 10 * time.Second` (nanoseconds). -/
def hlsSweepInterval : Int := 10 * 1000000000

/-- Go struct `connEntry`: metadata of one tracked connection. -/
structure ConnEntry where
  startTime : Int
  lastSeen : Int
  isHLS : Bool
  clientIP : String
deriving Repr, DecidableEq

/-- Go struct `ConnectionLimiter`. The `sync.RWMutex` is not part of the
data; it makes each operation below atomic. The `done` channel is modelled
by `doneClosed` (`true` once `close(cl.done)` has run). -/
structure ConnectionLimiter where
  active : List (String × ConnEntry)
  maxConnections : Int
  doneClosed : Bool
deriving Repr, DecidableEq

/-- Go `NewConnectionLimiter(max)`: empty map, given limit, open `done`
channel. (The spawned reaper goroutine is modelled by `reaperTick`.) -/
def NewConnectionLimiter (max : Int) : ConnectionLimiter :=
  { active := [], maxConnections := max, doneClosed := false }

/-- Go `Stop()`: `close(cl.done)`. Closing an already-closed channel panics
in Go, so `Stop` on a limiter whose `done` channel is already closed is a
panic, modelled as `none`. -/
def Stop (cl : ConnectionLimiter) : Option ConnectionLimiter :=
  if cl.doneClosed then none
  else some { cl with doneClosed := true }

/-- Go `connKey(clientIP, streamID)`: string concatenation with `":"`. -/
def connKey (clientIP streamID : String) : String :=
  clientIP ++ ":" ++ streamID

/-- Go map read `cl.active[key]`: first (unique) entry with this key. -/
def lookupActive : List (String × ConnEntry) → String → Option ConnEntry
  | [], _ => none
  | (k, e) :: rest, key => if k = key then some e else lookupActive rest key

/-- Go map write `cl.active[key] = e`: replace the entry if the key is
present, otherwise add it. -/
def insertActive : List (String × ConnEntry) → String → ConnEntry → List (String × ConnEntry)
  | [], key, e => [(key, e)]
  | (k, e') :: rest, key, e =>
    if k = key then (key, e) :: rest else (k, e') :: insertActive rest key e

/-- Go `delete(cl.active, key)`: drop the entry with this key (Go maps
hold at most one entry per key; on our reachable states keys are unique). -/
def eraseActive : List (String × ConnEntry) → String → List (String × ConnEntry)
  | [], _ => []
  | (k, e) :: rest, key =>
    if k = key then eraseActive rest key else (k, e) :: eraseActive rest key

/-- Go `entry.lastSeen = time.Now()` through the map's pointer: update the
`lastSeen` field of the entry stored at `key`. -/
def refreshLastSeen (m : List (String × ConnEntry)) (key : String) (now : Int) :
    List (String × ConnEntry) :=
  m.map (fun p => if p.1 = key then (p.1, { p.2 with lastSeen := now }) else p)

/-- The single Go error produced by `checkLimit`:
`fmt.Errorf("max connections reached (%d/%d)", len(cl.active), cl.maxConnections)`. -/
inductive LimitError where
  | atCapacity (activeCount limit : Int)
deriving Repr, DecidableEq

/-- Go `countIPStreams(clientIP)`: number of active entries whose stored
`clientIP` equals the given one. -/
def countIPStreams (m : List (String × ConnEntry)) (clientIP : String) : Nat :=
  (m.filter (fun p => decide (p.2.clientIP = clientIP))).length

/-- Go `checkLimit(clientIP)` (called with the mutex held): `nil` when the
admission is allowed, an error otherwise. -/
def checkLimit (cl : ConnectionLimiter) (clientIP : String) : Option LimitError :=
  if cl.maxConnections ≤ 0 then none
  else if (cl.active.length : Int) < cl.maxConnections then none
  else if (cl.active.length : Int) = cl.maxConnections ∧
      0 < countIPStreams cl.active clientIP then none
  else some (.atCapacity (cl.active.length : Int) cl.maxConnections)

/-- Go `Acquire(clientIP, streamID)`: reserve a persistent slot. Returns
the new state and the returned error (`none` = Go `nil`). -/
def Acquire (cl : ConnectionLimiter) (now : Int) (clientIP streamID : String) :
    ConnectionLimiter × Option LimitError :=
  match lookupActive cl.active (connKey clientIP streamID) with
  | some _ => (cl, none)
  | none =>
    match checkLimit cl clientIP with
    | some err => (cl, some err)
    | none =>
      ({ cl with
          active := insertActive cl.active (connKey clientIP streamID)
            { startTime := now, lastSeen := now, isHLS := false, clientIP := clientIP } },
        none)

/-- Go `Release(clientIP, streamID)`: drop the slot if present. -/
def Release (cl : ConnectionLimiter) (clientIP streamID : String) : ConnectionLimiter :=
  { cl with active := eraseActive cl.active (connKey clientIP streamID) }

/-- Go `Touch(clientIP, streamID)`: register or refresh an HLS slot. -/
def Touch (cl : ConnectionLimiter) (now : Int) (clientIP streamID : String) :
    ConnectionLimiter × Option LimitError :=
  match lookupActive cl.active (connKey clientIP streamID) with
  | some _ =>
    ({ cl with active := refreshLastSeen cl.active (connKey clientIP streamID) now }, none)
  | none =>
    match checkLimit cl clientIP with
    | some err => (cl, some err)
    | none =>
      ({ cl with
          active := insertActive cl.active (connKey clientIP streamID)
            { startTime := now, lastSeen := now, isHLS := true, clientIP := clientIP } },
        none)

/-- Go `ActiveCount()`. -/
def ActiveCount (cl : ConnectionLimiter) : Nat :=
  cl.active.length

/-- One sweep of the Go reaper's `ticker.C` case in `sweepStaleHLS`: delete
every entry with `entry.isHLS && now.Sub(entry.lastSeen) > hlsStaleTimeout`. -/
def sweepStaleHLS (cl : ConnectionLimiter) (now : Int) : ConnectionLimiter :=
  { cl with
      active := cl.active.filter
        (fun p => !(p.2.isHLS && decide (hlsStaleTimeout < now - p.2.lastSeen))) }

/-- One iteration of the reaper loop's `select` in `sweepStaleHLS`,
modelled from Go select semantics: receiving on the open `done` channel
blocks, so while `done` is open only a pending tick (`tickPending`) can
fire and it runs one sweep; once `done` is closed that case is always
ready, and Go's select has no priority — when a tick is also pending the
scheduler's choice (`pickDone`) decides uniformly which case fires.
`none` means the loop returns (the goroutine exits); `some cl'` means the
iteration completed with state `cl'` and the loop continues (when neither
case is ready the select blocks and the state is unchanged). -/
def reaperIter (cl : ConnectionLimiter) (tickPending pickDone : Bool) (now : Int) :
    Option ConnectionLimiter :=
  if cl.doneClosed && (pickDone || !tickPending) then none
  else if tickPending then some (sweepStaleHLS cl now)
  else some cl

/-- One caller-visible operation on the tracker (each is atomic under
`cl.mu`). -/
inductive Op where
  | reserve (clientIP streamID : String) (now : Int)
  | heartbeat (clientIP streamID : String) (now : Int)
  | release (clientIP streamID : String)
  | sweep (now : Int)
deriving Repr, DecidableEq

/-- Apply one operation to the state (dropping the returned error). -/
def applyOp (cl : ConnectionLimiter) : Op → ConnectionLimiter
  | .reserve ip sid now => (Acquire cl now ip sid).1
  | .heartbeat ip sid now => (Touch cl now ip sid).1
  | .release ip sid => Release cl ip sid
  | .sweep now => sweepStaleHLS cl now

/-- Run a sequence of operations. -/
def runOps (cl : ConnectionLimiter) (ops : List Op) : ConnectionLimiter :=
  ops.foldl applyOp cl

/-- Run a list of `Acquire` calls `(clientIP, streamID, now)`, collecting
each call's returned error. -/
def runReserves : ConnectionLimiter → List (String × String × Int) →
    ConnectionLimiter × List (Option LimitError)
  | cl, [] => (cl, [])
  | cl, (ip, sid, now) :: rest =>
    let step := Acquire cl now ip sid
    let tail := runReserves step.1 rest
    (tail.1, step.2 :: tail.2)

/-- A concrete over-limit state used by witnesses: limit 1, entries for
`("a","1")` (admitted below the limit) and `("a","2")` (admitted through the
grace rule), so the active set has size 2 = limit + 1. -/
def clOverLimit : ConnectionLimiter :=
  (Acquire (Acquire (NewConnectionLimiter 1) 0 "a" "1").1 0 "a" "2").1

/-- A concrete state with a Polled (HLS) entry for `("a","1")` admitted by
`Touch` at time 0, used by witnesses. -/
def clPolled : ConnectionLimiter := (Touch (NewConnectionLimiter 1) 0 "a" "1").1

/-! ### Association-list lemmas -/

theorem lookupActive_eq_none_iff (m : List (String × ConnEntry)) (k : String) :
    lookupActive m k = none ↔ ∀ p ∈ m, p.1 ≠ k := by
  induction m with
  | nil => simp [lookupActive]
  | cons hd tl ih =>
    obtain ⟨a, b⟩ := hd
    by_cases hak : a = k
    · subst hak
      simp [lookupActive]
    · simp [lookupActive, hak, ih]

theorem lookupActive_insertActive_ne (m : List (String × ConnEntry)) (k k' : String)
    (e : ConnEntry) (hne : k' ≠ k) :
    lookupActive (insertActive m k e) k' = lookupActive m k' := by
  induction m with
  | nil => simp only [insertActive, lookupActive, if_neg (Ne.symm hne)]
  | cons hd tl ih =>
    obtain ⟨a, b⟩ := hd
    simp only [insertActive]
    split_ifs with hak
    · subst hak
      simp only [lookupActive, if_neg (Ne.symm hne)]
    · simp only [lookupActive, ih]

theorem length_insertActive_of_lookup_none (m : List (String × ConnEntry)) (k : String)
    (e : ConnEntry) (h : lookupActive m k = none) :
    (insertActive m k e).length = m.length + 1 := by
  induction m with
  | nil => simp [insertActive]
  | cons hd tl ih =>
    obtain ⟨a, b⟩ := hd
    simp only [lookupActive] at h
    by_cases hak : a = k
    · rw [if_pos hak] at h
      exact absurd h (by simp)
    · rw [if_neg hak] at h
      simp [insertActive, hak, ih h]

theorem length_refreshLastSeen (m : List (String × ConnEntry)) (k : String) (now : Int) :
    (refreshLastSeen m k now).length = m.length := by
  simp [refreshLastSeen]

theorem eraseActive_of_lookup_none (m : List (String × ConnEntry)) (k : String)
    (h : lookupActive m k = none) : eraseActive m k = m := by
  induction m with
  | nil => rfl
  | cons hd tl ih =>
    obtain ⟨a, b⟩ := hd
    simp only [lookupActive] at h
    by_cases hak : a = k
    · rw [if_pos hak] at h
      exact absurd h (by simp)
    · rw [if_neg hak] at h
      simp [eraseActive, hak, ih h]

theorem lookupActive_eraseActive_self (m : List (String × ConnEntry)) (k : String) :
    lookupActive (eraseActive m k) k = none := by
  induction m with
  | nil => rfl
  | cons hd tl ih =>
    obtain ⟨a, b⟩ := hd
    simp only [eraseActive]
    split_ifs with hak
    · exact ih
    · simp only [lookupActive, if_neg hak, ih]

theorem lookupActive_eraseActive_ne (m : List (String × ConnEntry)) (k k' : String)
    (hne : k' ≠ k) : lookupActive (eraseActive m k) k' = lookupActive m k' := by
  induction m with
  | nil => rfl
  | cons hd tl ih =>
    obtain ⟨a, b⟩ := hd
    simp only [eraseActive]
    split_ifs with hak
    · subst hak
      simp only [lookupActive, if_neg (Ne.symm hne), ih]
    · simp only [lookupActive, ih]

theorem length_eraseActive_of_lookup_some (m : List (String × ConnEntry)) (k : String)
    (e : ConnEntry) (hnd : (m.map Prod.fst).Nodup) (h : lookupActive m k = some e) :
    (eraseActive m k).length + 1 = m.length := by
  induction m with
  | nil => exact absurd h (by simp [lookupActive])
  | cons hd tl ih =>
    obtain ⟨a, b⟩ := hd
    simp only [List.map_cons, List.nodup_cons] at hnd
    by_cases hak : a = k
    · subst hak
      have htl : lookupActive tl a = none := by
        refine (lookupActive_eq_none_iff tl a).mpr ?_
        intro p hp hpk
        exact hnd.1 (hpk ▸ List.mem_map_of_mem Prod.fst hp)
      simp [eraseActive, eraseActive_of_lookup_none tl a htl]
    · simp only [lookupActive, if_neg hak] at h
      simp [eraseActive, hak, ih hnd.2 h]

/-! ### Characterizations of the operations -/

theorem Acquire_of_lookup_some (cl : ConnectionLimiter) (now : Int) (ip sid : String)
    (e : ConnEntry) (h : lookupActive cl.active (connKey ip sid) = some e) :
    Acquire cl now ip sid = (cl, none) := by
  unfold Acquire
  rw [h]

theorem Acquire_of_checkLimit_some (cl : ConnectionLimiter) (now : Int) (ip sid : String)
    (err : LimitError) (h1 : lookupActive cl.active (connKey ip sid) = none)
    (h2 : checkLimit cl ip = some err) :
    Acquire cl now ip sid = (cl, some err) := by
  unfold Acquire
  rw [h1, h2]

theorem Acquire_of_checkLimit_none (cl : ConnectionLimiter) (now : Int) (ip sid : String)
    (h1 : lookupActive cl.active (connKey ip sid) = none)
    (h2 : checkLimit cl ip = none) :
    Acquire cl now ip sid =
      ({ cl with
          active := insertActive cl.active (connKey ip sid)
            { startTime := now, lastSeen := now, isHLS := false, clientIP := ip } },
        none) := by
  unfold Acquire
  rw [h1, h2]

theorem Touch_of_lookup_some (cl : ConnectionLimiter) (now : Int) (ip sid : String)
    (e : ConnEntry) (h : lookupActive cl.active (connKey ip sid) = some e) :
    Touch cl now ip sid =
      ({ cl with active := refreshLastSeen cl.active (connKey ip sid) now }, none) := by
  unfold Touch
  rw [h]

theorem Touch_of_checkLimit_some (cl : ConnectionLimiter) (now : Int) (ip sid : String)
    (err : LimitError) (h1 : lookupActive cl.active (connKey ip sid) = none)
    (h2 : checkLimit cl ip = some err) :
    Touch cl now ip sid = (cl, some err) := by
  unfold Touch
  rw [h1, h2]

theorem Touch_of_checkLimit_none (cl : ConnectionLimiter) (now : Int) (ip sid : String)
    (h1 : lookupActive cl.active (connKey ip sid) = none)
    (h2 : checkLimit cl ip = none) :
    Touch cl now ip sid =
      ({ cl with
          active := insertActive cl.active (connKey ip sid)
            { startTime := now, lastSeen := now, isHLS := true, clientIP := ip } },
        none) := by
  unfold Touch
  rw [h1, h2]

theorem checkLimit_none_length_le (cl : ConnectionLimiter) (ip : String)
    (hL : 0 < cl.maxConnections) (h : checkLimit cl ip = none) :
    (cl.active.length : Int) ≤ cl.maxConnections := by
  unfold checkLimit at h
  split at h
  · omega
  · split at h
    · omega
    · split at h
      · omega
      · exact absurd h (by simp)

theorem Acquire_maxConnections (cl : ConnectionLimiter) (now : Int) (ip sid : String) :
    (Acquire cl now ip sid).1.maxConnections = cl.maxConnections := by
  unfold Acquire
  split
  · rfl
  · split
    · rfl
    · rfl

theorem Touch_maxConnections (cl : ConnectionLimiter) (now : Int) (ip sid : String) :
    (Touch cl now ip sid).1.maxConnections = cl.maxConnections := by
  unfold Touch
  split
  · rfl
  · split
    · rfl
    · rfl

theorem applyOp_maxConnections (cl : ConnectionLimiter) (op : Op) :
    (applyOp cl op).maxConnections = cl.maxConnections := by
  cases op with
  | reserve ip sid now => exact Acquire_maxConnections cl now ip sid
  | heartbeat ip sid now => exact Touch_maxConnections cl now ip sid
  | release ip sid => rfl
  | sweep now => rfl

theorem Acquire_snd_of_lookup_none (cl : ConnectionLimiter) (now : Int) (ip sid : String)
    (h1 : lookupActive cl.active (connKey ip sid) = none) :
    (Acquire cl now ip sid).2 = checkLimit cl ip := by
  unfold Acquire
  rw [h1]
  rcases h2 : checkLimit cl ip with _ | err <;> rfl

theorem Touch_snd_of_lookup_none (cl : ConnectionLimiter) (now : Int) (ip sid : String)
    (h1 : lookupActive cl.active (connKey ip sid) = none) :
    (Touch cl now ip sid).2 = checkLimit cl ip := by
  unfold Touch
  rw [h1]
  rcases h2 : checkLimit cl ip with _ | err <;> rfl

theorem countIPStreams_pos_iff (m : List (String × ConnEntry)) (ip : String) :
    0 < countIPStreams m ip ↔ ∃ p ∈ m, p.2.clientIP = ip := by
  induction m with
  | nil => simp [countIPStreams]
  | cons hd tl ih =>
    simp only [countIPStreams, List.filter_cons] at ih ⊢
    by_cases h : hd.2.clientIP = ip
    · rw [if_pos (by simpa using h)]
      simp only [List.length_cons, Nat.succ_pos, true_iff, List.mem_cons]
      exact ⟨hd, Or.inl rfl, h⟩
    · rw [if_neg (by simpa using h), ih]
      simp only [List.mem_cons]
      constructor
      · rintro ⟨p, hp, hpip⟩
        exact ⟨p, Or.inr hp, hpip⟩
      · rintro ⟨p, hp, hpip⟩
        rcases hp with rfl | hp'
        · exact absurd hpip h
        · exact ⟨p, hp', hpip⟩

theorem checkLimit_eq_none_iff (cl : ConnectionLimiter) (ip : String) :
    checkLimit cl ip = none ↔
      (cl.maxConnections ≤ 0 ∨ (cl.active.length : Int) < cl.maxConnections ∨
        ((cl.active.length : Int) = cl.maxConnections ∧ ∃ p ∈ cl.active, p.2.clientIP = ip)) := by
  unfold checkLimit
  split_ifs with h1 h2 h3
  · simp [h1]
  · simp [h2]
  · simp only [eq_self_iff_true, true_iff]
    right; right
    exact ⟨h3.1, (countIPStreams_pos_iff cl.active ip).mp h3.2⟩
  · simp only [reduceCtorEq, false_iff]
    push_neg
    refine ⟨by omega, by omega, fun hh p hp hpip => ?_⟩
    exact h3 ⟨hh, (countIPStreams_pos_iff cl.active ip).mpr ⟨p, hp, hpip⟩⟩

theorem checkLimit_none_or_atCapacity (cl : ConnectionLimiter) (ip : String) :
    checkLimit cl ip = none ∨
      checkLimit cl ip =
        some (.atCapacity (cl.active.length : Int) cl.maxConnections) := by
  unfold checkLimit
  split_ifs <;> simp

/-! ### C1: the active set never exceeds `maxConnections + 1` -/

theorem length_eraseActive_le (m : List (String × ConnEntry)) (k : String) :
    (eraseActive m k).length ≤ m.length := by
  induction m with
  | nil => simp [eraseActive]
  | cons hd tl ih =>
    obtain ⟨a, b⟩ := hd
    simp only [eraseActive]
    split_ifs with hak
    · exact Nat.le_succ_of_le ih
    · simpa using ih

theorem length_applyOp_le (cl : ConnectionLimiter) (op : Op)
    (hL : 0 < cl.maxConnections)
    (hlen : (cl.active.length : Int) ≤ cl.maxConnections + 1) :
    ((applyOp cl op).active.length : Int) ≤ cl.maxConnections + 1 := by
  cases op with
  | reserve ip sid now =>
    simp only [applyOp]
    unfold Acquire
    split
    · exact hlen
    · rename_i h1
      split
      · exact hlen
      · rename_i h2
        have hle := checkLimit_none_length_le cl ip hL h2
        have hins := length_insertActive_of_lookup_none cl.active (connKey ip sid)
          { startTime := now, lastSeen := now, isHLS := false, clientIP := ip } h1
        simp only [hins]
        push_cast
        omega
  | heartbeat ip sid now =>
    simp only [applyOp]
    unfold Touch
    split
    · simp only [length_refreshLastSeen]
      exact hlen
    · rename_i h1
      split
      · exact hlen
      · rename_i h2
        have hle := checkLimit_none_length_le cl ip hL h2
        have hins := length_insertActive_of_lookup_none cl.active (connKey ip sid)
          { startTime := now, lastSeen := now, isHLS := true, clientIP := ip } h1
        simp only [hins]
        push_cast
        omega
  | release ip sid =>
    have := length_eraseActive_le cl.active (connKey ip sid)
    simp only [applyOp, Release]
    omega
  | sweep now =>
    have := List.length_filter_le
      (fun p : String × ConnEntry =>
        !(p.2.isHLS && decide (hlsStaleTimeout < now - p.2.lastSeen)))
      cl.active
    simp only [applyOp, sweepStaleHLS]
    omega

theorem runOps_length_le (ops : List Op) (cl : ConnectionLimiter)
    (hL : 0 < cl.maxConnections)
    (hlen : (cl.active.length : Int) ≤ cl.maxConnections + 1) :
    ((runOps cl ops).active.length : Int) ≤ cl.maxConnections + 1 := by
  induction ops generalizing cl with
  | nil => exact hlen
  | cons op rest ih =>
    have h1 := length_applyOp_le cl op hL hlen
    have h2 := applyOp_maxConnections cl op
    have h3 := ih (applyOp cl op) (h2 ▸ hL) (h2 ▸ h1)
    rw [h2] at h3
    simpa [runOps, List.foldl] using h3

/-- C1: for every configured limit `L > 0` and every sequence of
Reserve (`Acquire`), Heartbeat (`Touch`), Release and reaper-sweep
operations starting from a freshly constructed tracker, the size of the
active set never exceeds `L + 1` (each operation is atomic under `cl.mu`,
so any concurrent execution is one such sequence; every prefix of a
sequence is itself a sequence, so the bound holds at every point). -/
theorem C1_active_set_never_exceeds_limit_plus_one (L : Int) (ops : List Op)
    (hL : 0 < L) :
    ((runOps (NewConnectionLimiter L) ops).active.length : Int) ≤ L + 1 := by
  have h := runOps_length_le ops (NewConnectionLimiter L) hL
    (by simp only [NewConnectionLimiter, List.length_nil, Nat.cast_zero]; omega)
  simpa [NewConnectionLimiter] using h

/-- Witness for C1 at `L = 1` and a concrete operation sequence that fills
the set to the grace bound. -/
theorem C1_witness :
    ((runOps (NewConnectionLimiter 1)
        [Op.reserve "a" "1" 0, Op.reserve "a" "2" 0, Op.reserve "b" "3" 0]).active.length : Int)
      ≤ 1 + 1 :=
  C1_active_set_never_exceeds_limit_plus_one 1
    [Op.reserve "a" "1" 0, Op.reserve "a" "2" 0, Op.reserve "b" "3" 0] (by decide)

/-! ### C2: the exact admission decision for an untracked key -/

/-- C2: for a Reserve (`Acquire`) or Heartbeat (`Touch`) call whose key is
not already tracked, with active-set size `n` and limit `L`, admission is
decided exactly by: admit if `L ≤ 0`; else admit if `n < L`; else admit if
`n = L` and at least one tracked entry has the requesting client identity;
otherwise reject with `AtCapacity` (carrying `n` and `L`). -/
theorem C2_admission_decision (cl : ConnectionLimiter) (now : Int) (ip sid : String)
    (hfresh : lookupActive cl.active (connKey ip sid) = none) :
    ((Acquire cl now ip sid).2 = none ↔
      (cl.maxConnections ≤ 0 ∨ (cl.active.length : Int) < cl.maxConnections ∨
        ((cl.active.length : Int) = cl.maxConnections ∧
          ∃ p ∈ cl.active, p.2.clientIP = ip))) ∧
    ((Touch cl now ip sid).2 = none ↔
      (cl.maxConnections ≤ 0 ∨ (cl.active.length : Int) < cl.maxConnections ∨
        ((cl.active.length : Int) = cl.maxConnections ∧
          ∃ p ∈ cl.active, p.2.clientIP = ip))) ∧
    ((Acquire cl now ip sid).2 ≠ none →
      (Acquire cl now ip sid).2 =
          some (.atCapacity (cl.active.length : Int) cl.maxConnections) ∧
        (Touch cl now ip sid).2 =
          some (.atCapacity (cl.active.length : Int) cl.maxConnections)) := by
  rw [Acquire_snd_of_lookup_none cl now ip sid hfresh,
    Touch_snd_of_lookup_none cl now ip sid hfresh]
  refine ⟨checkLimit_eq_none_iff cl ip, checkLimit_eq_none_iff cl ip, fun hne => ?_⟩
  rcases checkLimit_none_or_atCapacity cl ip with h | h
  · exact absurd h hne
  · exact ⟨h, h⟩

/-- Witness for C2: on a fresh tracker with limit 1, an untracked key is
admitted because the size 0 is below the limit. -/
theorem C2_witness : (Acquire (NewConnectionLimiter 1) 0 "a" "1").2 = none :=
  ((C2_admission_decision (NewConnectionLimiter 1) 0 "a" "1" rfl).1).mpr
    (Or.inr (Or.inl (by decide)))

/-! ### C3: once at `L + 1`, every new key is rejected with no state change -/

/-- C3: with `L > 0`, once the active-set size is `L + 1` (the grace slot is
used), every Reserve or Heartbeat for an untracked key returns `AtCapacity`
and leaves the state unchanged — the requesting client identity is
arbitrary, so this covers the identity that used the grace slot and every
other identity. -/
theorem C3_rejected_once_over_limit (cl : ConnectionLimiter) (now : Int) (ip sid : String)
    (hL : 0 < cl.maxConnections)
    (hn : (cl.active.length : Int) = cl.maxConnections + 1)
    (hfresh : lookupActive cl.active (connKey ip sid) = none) :
    Acquire cl now ip sid =
        (cl, some (.atCapacity (cl.active.length : Int) cl.maxConnections)) ∧
      Touch cl now ip sid =
        (cl, some (.atCapacity (cl.active.length : Int) cl.maxConnections)) := by
  have hcheck : checkLimit cl ip =
      some (.atCapacity (cl.active.length : Int) cl.maxConnections) := by
    unfold checkLimit
    rw [if_neg (by omega), if_neg (by omega), if_neg (by rintro ⟨h, -⟩; omega)]
  exact ⟨Acquire_of_checkLimit_some cl now ip sid _ hfresh hcheck,
    Touch_of_checkLimit_some cl now ip sid _ hfresh hcheck⟩

/-- Witness for C3: in the concrete size-2, limit-1 state, a Reserve and a
Heartbeat for a new key of the same client identity are both rejected with
`AtCapacity` and leave the state unchanged. -/
theorem C3_witness :
    Acquire clOverLimit 0 "a" "3" =
        (clOverLimit, some (.atCapacity (clOverLimit.active.length : Int)
          clOverLimit.maxConnections)) ∧
      Touch clOverLimit 0 "a" "3" =
        (clOverLimit, some (.atCapacity (clOverLimit.active.length : Int)
          clOverLimit.maxConnections)) :=
  C3_rejected_once_over_limit clOverLimit 0 "a" "3" (by decide) (by decide) (by decide)

/-! ### C5: Reserve/Heartbeat on an already-tracked key is a no-op -/

/-- C5: whenever the key `(ip, sid)` is already tracked, Reserve (`Acquire`)
returns success and leaves the whole state unchanged, and Heartbeat
(`Touch`) returns success and leaves `ActiveCount` unchanged (it only
refreshes `lastSeen`). The state `cl` is arbitrary — in particular
arbitrary occupancy and limit — so no admission check is consulted and
`AtCapacity` is impossible. -/
theorem C5_tracked_key_noop (cl : ConnectionLimiter) (now : Int) (ip sid : String)
    (e : ConnEntry) (h : lookupActive cl.active (connKey ip sid) = some e) :
    Acquire cl now ip sid = (cl, none) ∧
      (Touch cl now ip sid).2 = none ∧
      ActiveCount (Touch cl now ip sid).1 = ActiveCount cl := by
  refine ⟨Acquire_of_lookup_some cl now ip sid e h, ?_, ?_⟩
  · rw [Touch_of_lookup_some cl now ip sid e h]
  · rw [Touch_of_lookup_some cl now ip sid e h]
    simp [ActiveCount, length_refreshLastSeen]

/-- Witness for C5 on the concrete state `clOverLimit`, where the key
`("a","1")` is tracked. -/
theorem C5_witness :
    Acquire clOverLimit 7 "a" "1" = (clOverLimit, none) ∧
      (Touch clOverLimit 7 "a" "1").2 = none ∧
      ActiveCount (Touch clOverLimit 7 "a" "1").1 = ActiveCount clOverLimit :=
  C5_tracked_key_noop clOverLimit 7 "a" "1"
    { startTime := 0, lastSeen := 0, isHLS := false, clientIP := "a" } (by decide)

/-! ### C6: Release semantics -/

/-- C6: Release of a tracked key removes exactly that entry — `ActiveCount`
drops by exactly 1, the key's entry is gone, every other key's entry is
unchanged; Release of an untracked key leaves the state identical (it is a
total function, so it never errors or panics). The `Nodup` hypothesis says
the map keys are unique, which holds on every reachable state
(`runOps_keys_nodup`), matching the Go map. -/
theorem C6_release_semantics (cl : ConnectionLimiter) (ip sid : String)
    (hnd : (cl.active.map Prod.fst).Nodup) :
    (∀ e, lookupActive cl.active (connKey ip sid) = some e →
      ActiveCount (Release cl ip sid) + 1 = ActiveCount cl ∧
        lookupActive (Release cl ip sid).active (connKey ip sid) = none ∧
        ∀ k, k ≠ connKey ip sid →
          lookupActive (Release cl ip sid).active k = lookupActive cl.active k) ∧
      (lookupActive cl.active (connKey ip sid) = none → Release cl ip sid = cl) := by
  constructor
  · intro e he
    refine ⟨?_, lookupActive_eraseActive_self cl.active _, fun k hk =>
      lookupActive_eraseActive_ne cl.active _ k hk⟩
    exact length_eraseActive_of_lookup_some cl.active _ e hnd he
  · intro he
    simp [Release, eraseActive_of_lookup_none cl.active _ he]

/-- Witness for C6 on `clOverLimit` (keys `"a:1"`, `"a:2"`, unique). -/
theorem C6_witness :
    ActiveCount (Release clOverLimit "a" "1") + 1 = ActiveCount clOverLimit ∧
      lookupActive (Release clOverLimit "a" "1").active (connKey "a" "1") = none :=
  let h := (C6_release_semantics clOverLimit "a" "1" (by decide)).1
    { startTime := 0, lastSeen := 0, isHLS := false, clientIP := "a" } (by decide)
  ⟨h.1, h.2.1⟩

/-! ### C7: the reaper sweep removes exactly the stale Polled entries -/

/-- C7: a sweep at time `now` keeps an entry exactly when it is not a stale
Polled (HLS) entry: `(k, e)` survives iff it was present and not
(`e.isHLS` with `now - e.lastSeen` exceeding the staleness threshold).
In particular a Persistent entry (`isHLS = false`) is never removed by a
sweep, regardless of how old its `startTime`/`lastSeen` are. -/
theorem C7_sweep_exactly_stale_polled (cl : ConnectionLimiter) (now : Int)
    (k : String) (e : ConnEntry) :
    (k, e) ∈ (sweepStaleHLS cl now).active ↔
      ((k, e) ∈ cl.active ∧ ¬(e.isHLS = true ∧ hlsStaleTimeout < now - e.lastSeen)) := by
  simp only [sweepStaleHLS, List.mem_filter]
  constructor
  · rintro ⟨hmem, hpred⟩
    refine ⟨hmem, ?_⟩
    rintro ⟨hhls, hstale⟩
    simp [hhls, hstale] at hpred
  · rintro ⟨hmem, hn⟩
    refine ⟨hmem, ?_⟩
    by_cases hb : e.isHLS
    · have hns : ¬(hlsStaleTimeout < now - e.lastSeen) := fun hs => hn ⟨hb, hs⟩
      simp [hb, hns]
    · simp [hb]

/-! ### C10: Reserve on an existing Polled entry changes nothing -/

/-- C10: a Reserve (`Acquire`) on an already-tracked key returns success and
leaves the tracker completely unchanged — the entry's kind is not converted
to Persistent and `lastSeen` is not refreshed — so a Polled entry that is
stale at time `now` is still removed by a sweep run after the successful
Reserve. -/
theorem C10_reserve_keeps_polled_reapable (cl : ConnectionLimiter) (mid now : Int)
    (ip sid : String) (e : ConnEntry)
    (h : lookupActive cl.active (connKey ip sid) = some e) :
    Acquire cl mid ip sid = (cl, none) ∧
      (e.isHLS = true → hlsStaleTimeout < now - e.lastSeen →
        (connKey ip sid, e) ∉ (sweepStaleHLS (Acquire cl mid ip sid).1 now).active) := by
  have ha := Acquire_of_lookup_some cl mid ip sid e h
  refine ⟨ha, fun hhls hstale => ?_⟩
  rw [ha]
  simp [sweepStaleHLS, List.mem_filter, hhls, hstale]

/-- Witness for C10: after a successful Reserve at time 5 on the Polled key
of `clPolled`, a sweep at time `hlsStaleTimeout + 1` still removes the
entry. -/
theorem C10_witness :
    (connKey "a" "1", { startTime := 0, lastSeen := 0, isHLS := true, clientIP := "a" })
      ∉ (sweepStaleHLS (Acquire clPolled 5 "a" "1").1 30000000001).active :=
  (C10_reserve_keeps_polled_reapable clPolled 5 30000000001 "a" "1"
      { startTime := 0, lastSeen := 0, isHLS := true, clientIP := "a" } (by decide)).2
    rfl (by decide)

/-! ### Reachable states have unique keys (the Go map invariant) -/

theorem mem_keys_insertActive (m : List (String × ConnEntry)) (k k' : String) (e : ConnEntry) :
    k' ∈ (insertActive m k e).map Prod.fst ↔ k' ∈ m.map Prod.fst ∨ k' = k := by
  induction m with
  | nil => simp [insertActive]
  | cons hd tl ih =>
    obtain ⟨a, b⟩ := hd
    simp only [insertActive]
    split_ifs with hak
    · subst hak
      simp only [List.map_cons, List.mem_cons]
      tauto
    · simp only [List.map_cons, List.mem_cons, ih]
      tauto

theorem nodup_keys_insertActive (m : List (String × ConnEntry)) (k : String) (e : ConnEntry)
    (hnd : (m.map Prod.fst).Nodup) : ((insertActive m k e).map Prod.fst).Nodup := by
  induction m with
  | nil => simp [insertActive]
  | cons hd tl ih =>
    obtain ⟨a, b⟩ := hd
    simp only [List.map_cons, List.nodup_cons] at hnd
    simp only [insertActive]
    split_ifs with hak
    · subst hak
      simp only [List.map_cons, List.nodup_cons]
      exact hnd
    · simp only [List.map_cons, List.nodup_cons]
      refine ⟨fun hmem => ?_, ih hnd.2⟩
      rcases (mem_keys_insertActive tl k a e).mp hmem with h' | h'
      · exact hnd.1 h'
      · exact hak h'

theorem eraseActive_sublist (m : List (String × ConnEntry)) (k : String) :
    (eraseActive m k).Sublist m := by
  induction m with
  | nil => simp [eraseActive]
  | cons hd tl ih =>
    obtain ⟨a, b⟩ := hd
    simp only [eraseActive]
    split_ifs with hak
    · exact ih.cons (a, b)
    · exact ih.cons₂ (a, b)

theorem keys_refreshLastSeen (m : List (String × ConnEntry)) (k : String) (now : Int) :
    (refreshLastSeen m k now).map Prod.fst = m.map Prod.fst := by
  induction m with
  | nil => rfl
  | cons hd tl ih =>
    obtain ⟨a, b⟩ := hd
    simp only [refreshLastSeen, List.map_cons] at ih ⊢
    by_cases h : a = k <;> simp [h, ih]

theorem nodup_keys_applyOp (cl : ConnectionLimiter) (op : Op)
    (hnd : (cl.active.map Prod.fst).Nodup) :
    ((applyOp cl op).active.map Prod.fst).Nodup := by
  cases op with
  | reserve ip sid now =>
    simp only [applyOp]
    unfold Acquire
    split
    · exact hnd
    · split
      · exact hnd
      · exact nodup_keys_insertActive _ _ _ hnd
  | heartbeat ip sid now =>
    simp only [applyOp]
    unfold Touch
    split
    · simpa [keys_refreshLastSeen] using hnd
    · split
      · exact hnd
      · exact nodup_keys_insertActive _ _ _ hnd
  | release ip sid =>
    exact hnd.sublist ((eraseActive_sublist cl.active _).map Prod.fst)
  | sweep now =>
    exact hnd.sublist ((List.filter_sublist cl.active).map Prod.fst)

/-- Every state reachable from a fresh tracker has unique map keys, the
invariant a Go map maintains structurally; it discharges the `Nodup`
hypothesis of `C6_release_semantics` on all real states. -/
theorem runOps_keys_nodup (L : Int) (ops : List Op) :
    ((runOps (NewConnectionLimiter L) ops).active.map Prod.fst).Nodup := by
  suffices h : ∀ cl : ConnectionLimiter, (cl.active.map Prod.fst).Nodup →
      ((runOps cl ops).active.map Prod.fst).Nodup by
    exact h _ (by simp [NewConnectionLimiter])
  induction ops with
  | nil => exact fun cl h => h
  | cons op rest ih =>
    intro cl h
    simpa [runOps, List.foldl] using ih (applyOp cl op) (nodup_keys_applyOp cl op h)

/-! ### C4: admission races cannot over-admit -/

theorem runReserves_all_admitted (ps : List (String × String × Int))
    (cl : ConnectionLimiter)
    (hnd : (ps.map (fun p => connKey p.1 p.2.1)).Nodup)
    (hfresh : ∀ p ∈ ps, lookupActive cl.active (connKey p.1 p.2.1) = none)
    (hcap : (cl.active.length : Int) + ps.length ≤ cl.maxConnections) :
    (∀ r ∈ (runReserves cl ps).2, r = none) ∧
      (runReserves cl ps).1.active.length = cl.active.length + ps.length := by
  induction ps generalizing cl with
  | nil => simp [runReserves]
  | cons p rest ih =>
    obtain ⟨ip, sid, now⟩ := p
    simp only [List.map_cons, List.nodup_cons] at hnd
    have hf0 : lookupActive cl.active (connKey ip sid) = none :=
      hfresh _ (List.mem_cons_self _ _)
    have hchk : checkLimit cl ip = none := by
      rw [checkLimit_eq_none_iff]
      by_cases hL : cl.maxConnections ≤ 0
      · exact Or.inl hL
      · refine Or.inr (Or.inl ?_)
        simp only [List.length_cons] at hcap
        push_cast at hcap
        omega
    have hacq := Acquire_of_checkLimit_none cl now ip sid hf0 hchk
    have hlen := length_insertActive_of_lookup_none cl.active (connKey ip sid)
      { startTime := now, lastSeen := now, isHLS := false, clientIP := ip } hf0
    have hstep := ih
      { cl with
          active := insertActive cl.active (connKey ip sid)
            { startTime := now, lastSeen := now, isHLS := false, clientIP := ip } }
      hnd.2
      (by
        intro q hq
        have hne : connKey q.1 q.2.1 ≠ connKey ip sid := by
          intro hcontra
          exact hnd.1 (hcontra ▸ List.mem_map_of_mem (fun r => connKey r.1 r.2.1) hq)
        rw [lookupActive_insertActive_ne cl.active _ _ _ hne]
        exact hfresh q (List.mem_cons_of_mem _ hq))
      (by
        simp only [hlen, List.length_cons] at hcap ⊢
        push_cast at hcap ⊢
        omega)
    simp only [runReserves, hacq]
    refine ⟨?_, ?_⟩
    · intro r hr
      rcases List.mem_cons.mp hr with rfl | hr'
      · rfl
      · exact hstep.1 r hr'
    · simp only [hstep.2, hlen, List.length_cons]
      omega

/-- C4: each `Acquire` holds `cl.mu` over its whole check-then-insert
critical section, so it is one atomic step and any concurrent execution of
N Reserve calls is some sequential order of them; for every such order of N
Reserve calls with pairwise-distinct keys against a fresh limiter with
`maxConnections = N`, all N calls succeed and `ActiveCount` ends at exactly
N — no admission is lost or double-counted, and since the quantification
covers every order, no order lets two calls both exceed capacity. -/
theorem C4_concurrent_distinct_reserves_all_succeed (ps : List (String × String × Int))
    (hnd : (ps.map (fun p => connKey p.1 p.2.1)).Nodup) :
    (∀ r ∈ (runReserves (NewConnectionLimiter (ps.length : Int)) ps).2, r = none) ∧
      ActiveCount (runReserves (NewConnectionLimiter (ps.length : Int)) ps).1 = ps.length := by
  have h := runReserves_all_admitted ps (NewConnectionLimiter (ps.length : Int)) hnd
    (fun p _ => rfl)
    (by simp [NewConnectionLimiter])
  simpa [ActiveCount, NewConnectionLimiter] using h

/-- Witness for C4 with two distinct keys and limit 2. -/
theorem C4_witness :
    ActiveCount
        (runReserves (NewConnectionLimiter (([("a", "1", (0 : Int)), ("b", "2", 0)].length : Int)))
          [("a", "1", 0), ("b", "2", 0)]).1 = 2 :=
  (C4_concurrent_distinct_reserves_all_succeed [("a", "1", 0), ("b", "2", 0)] (by decide)).2

/-! ### C8: Stop -/

/-- C8 counterexample: the claim says stopping twice must not error, panic
or deadlock, but `Stop` is `close(cl.done)` and in Go closing an
already-closed channel panics: starting from a fresh tracker, a first
`Stop` succeeds and the second `Stop` panics (`none`). -/
theorem C8_counterexample :
    Option.bind (Stop (NewConnectionLimiter 2)) Stop = none := rfl

/-- C8 amended: `Stop` on a running tracker succeeds, but it is not
idempotent — a second `Stop` closes an already-closed channel, which
panics. After a stop the reaper exits at the first loop iteration whose
select takes the `done` case: always when no tick is pending, and whenever
the scheduler picks the `done` case; but Go's select has no `done`
priority, so an iteration in which a pending tick wins still runs a sweep
(`Stop` does not join the goroutine). Before a stop the reaper never
exits. -/
theorem C8_stop_once (cl : ConnectionLimiter) (h : cl.doneClosed = false) :
    ∃ cl', Stop cl = some cl' ∧ Stop cl' = none ∧
      (∀ now tickPending pickDone, reaperIter cl tickPending pickDone now ≠ none) ∧
      (∀ now pickDone, reaperIter cl' false pickDone now = none) ∧
      (∀ now tickPending, reaperIter cl' tickPending true now = none) ∧
      (∀ now, reaperIter cl' true false now = some (sweepStaleHLS cl' now)) := by
  refine ⟨{ cl with doneClosed := true }, ?_, ?_, ?_, ?_, ?_, ?_⟩
  · simp [Stop, h]
  · simp [Stop]
  · intro now tickPending pickDone
    cases tickPending <;> simp [reaperIter, h]
  · intro now pickDone
    simp [reaperIter]
  · intro now tickPending
    simp [reaperIter]
  · intro now
    simp [reaperIter]

/-- Witness for C8's amended theorem on a fresh tracker. -/
theorem C8_witness :
    ∃ cl', Stop (NewConnectionLimiter 3) = some cl' ∧ Stop cl' = none ∧
      (∀ now tickPending pickDone,
        reaperIter (NewConnectionLimiter 3) tickPending pickDone now ≠ none) ∧
      (∀ now pickDone, reaperIter cl' false pickDone now = none) ∧
      (∀ now tickPending, reaperIter cl' tickPending true now = none) ∧
      (∀ now, reaperIter cl' true false now = some (sweepStaleHLS cl' now)) :=
  C8_stop_once (NewConnectionLimiter 3) rfl

/-! ### C9: how the active set is keyed -/

/-- C9 counterexample: the distinct pairs `("a","b:c")` and `("a:b","c")`
concatenate to the same key `"a:b:c"`, so after reserving `("a","b:c")` a
Reserve of `("a:b","c")` is a success-returning no-op (`ActiveCount` stays
1) and a Release of `("a:b","c")` removes `("a","b:c")`'s entry
(`ActiveCount` drops to 0) — refuting the claim that the tracker treats all
distinct pairs as distinct entries. -/
theorem C9_counterexample :
    connKey "a" "b:c" = connKey "a:b" "c" ∧
      Acquire (Acquire (NewConnectionLimiter 5) 0 "a" "b:c").1 0 "a:b" "c" =
        ((Acquire (NewConnectionLimiter 5) 0 "a" "b:c").1, none) ∧
      ActiveCount (Acquire (NewConnectionLimiter 5) 0 "a" "b:c").1 = 1 ∧
      ActiveCount (Release (Acquire (NewConnectionLimiter 5) 0 "a" "b:c").1 "a:b" "c") = 0 := by
  refine ⟨rfl, ?_, rfl, ?_⟩ <;> decide

/-- C9 amended: the active set is keyed by the concatenated string
`clientIdentity ++ ":" ++ streamIdentity`; the tracker treats two pairs as
distinct exactly when their concatenated keys differ (pairs such as
`("a","b:c")` and `("a:b","c")` collide and are the same entry). For pairs
with different concatenated keys, a Reserve of one leaves the other key's
entry untouched, and a Release of one leaves the other key's entry
untouched. -/
theorem C9_keying_by_concatenation (cl : ConnectionLimiter) (now : Int)
    (ip1 sid1 ip2 sid2 : String) (hne : connKey ip1 sid1 ≠ connKey ip2 sid2) :
    lookupActive (Acquire cl now ip1 sid1).1.active (connKey ip2 sid2) =
        lookupActive cl.active (connKey ip2 sid2) ∧
      lookupActive (Release cl ip1 sid1).active (connKey ip2 sid2) =
        lookupActive cl.active (connKey ip2 sid2) := by
  constructor
  · unfold Acquire
    split
    · rfl
    · split
      · rfl
      · exact lookupActive_insertActive_ne cl.active _ _ _ (Ne.symm hne)
  · exact lookupActive_eraseActive_ne cl.active _ _ (Ne.symm hne)

/-- Witness for C9's amended theorem at two keys with different
concatenations. -/
theorem C9_witness :
    lookupActive (Acquire (NewConnectionLimiter 5) 0 "a" "1").1.active (connKey "b" "2") =
      lookupActive (NewConnectionLimiter 5).active (connKey "b" "2") :=
  (C9_keying_by_concatenation (NewConnectionLimiter 5) 0 "a" "1" "b" "2" (by decide)).1

end IptvProxy
